import Mathlib

/-!
# libxauth-rs : a shallow embedding of the Xauthority codec, file handle and lock

Byte streams are modelled as `List Nat` (each element one byte), readers as
functions from the remaining stream to `Except Err (value × rest)`, and the
in-memory `Vec<u8>` writer as pure list production (writes to a `Vec` are
infallible, so the encoding functions are total).  Rust `String` fields are
modelled as their UTF-8 byte content, with validity checked by `isUtf8`
exactly where the source performs a `try_into` conversion to `String`.
-/

deriving instance DecidableEq for Except

namespace Xauth

/-- Error values surfaced by the embedded code.  `eof` models an
`io::ErrorKind::UnexpectedEof` from `read_exact`; `invalidField` models
`err_invalid_field` from `src/encoding.rs`; the remaining constructors model
the `io::ErrorKind`s produced by the filesystem operations in `src/lock.rs`. -/
inductive Err where
  | eof
  | invalidField (field : String)
  | alreadyExists
  | notFound
  | invalidFilename
deriving DecidableEq, Repr

/-- `read_len` (src/encoding.rs:7-11): read two bytes and combine them
big-endian into a `u16`.  A stream with fewer than two bytes makes
`read_exact` fail with `UnexpectedEof`. -/
def read_len : List Nat → Except Err (Nat × List Nat)
  | b0 :: b1 :: rest => .ok (b0 * 256 + b1, rest)
  | _ => .error .eof

/-- `write_len` (src/encoding.rs:13-15): emit a `u16` value big-endian. -/
def write_len (v : Nat) : List Nat :=
  [v / 256 % 256, v % 256]

/-- `read_field` (src/encoding.rs:17-24): a 16-bit big-endian length prefix
followed by exactly that many raw bytes; a short read is `UnexpectedEof`. -/
def read_field (s : List Nat) : Except Err (List Nat × List Nat) :=
  match read_len s with
  | .error e => .error e
  | .ok (len, s1) =>
      if s1.length < len then .error .eof
      else .ok (s1.take len, s1.drop len)

/-- `write_field` (src/encoding.rs:41-48): the length prefix is
`bytes.len() as u16`, a truncating cast, i.e. the length modulo 2^16; every
byte of the field is then written unconditionally. -/
def write_field (bytes : List Nat) : List Nat :=
  write_len (bytes.length % 65536) ++ bytes

/-- UTF-8 validation of a byte list, one byte at a time.  The state carries
the number of continuation bytes still expected together with the allowed
range for the next byte (RFC 3629 ranges, matching `str::from_utf8`). -/
def utf8Run : Nat × Nat × Nat → List Nat → Bool
  | (0, _, _), [] => true
  | (0, _, _), b :: rest =>
      if b ≤ 127 then utf8Run (0, 0, 0) rest
      else if 194 ≤ b && b ≤ 223 then utf8Run (1, 128, 191) rest
      else if b = 224 then utf8Run (2, 160, 191) rest
      else if 225 ≤ b && b ≤ 236 then utf8Run (2, 128, 191) rest
      else if b = 237 then utf8Run (2, 128, 159) rest
      else if 238 ≤ b && b ≤ 239 then utf8Run (2, 128, 191) rest
      else if b = 240 then utf8Run (3, 144, 191) rest
      else if 241 ≤ b && b ≤ 243 then utf8Run (3, 128, 191) rest
      else if b = 244 then utf8Run (3, 128, 143) rest
      else false
  | (_ + 1, _, _), [] => false
  | (n + 1, lo, hi), b :: rest =>
      if lo ≤ b && b ≤ hi then utf8Run (n, 128, 191) rest else false

/-- Rust's `String::try_from(Vec<u8>)` succeeds exactly on valid UTF-8. -/
def isUtf8 (s : List Nat) : Bool :=
  utf8Run (0, 0, 0) s

/-- `Family` (src/encoding.rs:52-62): a `#[repr(u16)]` enum with exactly six
named variants and no catch-all. -/
inductive Family where
  | Local
  | Wild
  | Netname
  | Krb5Principal
  | LocalHost
  | ProbablyWildNonspec
deriving DecidableEq, Repr

/-- The `u16` discriminant of each `Family` variant (`family as u16`). -/
def Family.toCode : Family → Nat
  | .Local => 256
  | .Wild => 65535
  | .Netname => 254
  | .Krb5Principal => 253
  | .LocalHost => 252
  | .ProbablyWildNonspec => 0

/-- `Family::from_repr`, derived by `strum::FromRepr`: the inverse of the
discriminant map on the six declared values, `none` everywhere else. -/
def Family.from_repr (v : Nat) : Option Family :=
  if v = 256 then some .Local
  else if v = 65535 then some .Wild
  else if v = 254 then some .Netname
  else if v = 253 then some .Krb5Principal
  else if v = 252 then some .LocalHost
  else if v = 0 then some .ProbablyWildNonspec
  else none

/-- `Entry` (src/encoding.rs:64-71).  The Rust `String` fields
`display_number` and `auth_name` are modelled by their UTF-8 bytes. -/
structure Entry where
  family : Family
  address : List Nat
  display_number : List Nat
  auth_name : List Nat
  auth_data : List Nat
deriving DecidableEq, Repr

/-- `Entry::read_from` (src/encoding.rs:74-88).  Any failure of the initial
family read is mapped to `Ok(None)` (the source matches `Err(_)`, with a TODO
noting it should match only EOF).  The struct literal evaluates `family?`
before reading the remaining fields; the two text fields go through a
`try_into` UTF-8 conversion whose failure is reported as an invalid field. -/
def Entry.read_from (s : List Nat) : Except Err (Option Entry × List Nat) :=
  match read_len s with
  | .error _ => .ok (none, s)
  | .ok (famCode, s1) =>
    match Family.from_repr famCode with
    | none => .error (.invalidField "family")
    | some fam =>
      match read_field s1 with
      | .error e => .error e
      | .ok (addr, s2) =>
        match read_field s2 with
        | .error e => .error e
        | .ok (dn, s3) =>
          if isUtf8 dn then
            match read_field s3 with
            | .error e => .error e
            | .ok (an, s4) =>
              if isUtf8 an then
                match read_field s4 with
                | .error e => .error e
                | .ok (ad, s5) => .ok (some ⟨fam, addr, dn, an, ad⟩, s5)
              else .error (.invalidField "auth_name")
          else .error (.invalidField "display_number")

/-- `Entry::write_to` (src/encoding.rs:90-98): family discriminant as a
big-endian `u16`, then the four length-prefixed fields in fixed order. -/
def Entry.write_to (e : Entry) : List Nat :=
  write_len e.family.toCode ++ write_field e.address ++
    write_field e.display_number ++ write_field e.auth_name ++
    write_field e.auth_data

/-- The loop body of `XAuthority::read_from` (src/encoding.rs:112-120),
with a fuel parameter bounding the number of iterations.  Each successful
`Entry::read_from` consumes at least ten bytes of the stream, so the fuel
`s.length + 1` used by `XAuthority.read_from` below is never exhausted;
`readAllFuel_irrelevant` proves the result does not depend on the fuel once
it exceeds the stream length. -/
def readAllFuel : Nat → List Nat → Except Err (List Entry)
  | 0, _ => .ok []
  | fuel + 1, s =>
    match Entry.read_from s with
    | .error e => .error e
    | .ok (none, _) => .ok []
    | .ok (some e, s1) =>
      match readAllFuel fuel s1 with
      | .error err => .error err
      | .ok es => .ok (e :: es)

/-- `XAuthority::read_from` (src/encoding.rs:112-120): repeatedly decode
entries until `Entry::read_from` yields `None`, collecting them in order. -/
def XAuthority.read_from (s : List Nat) : Except Err (List Entry) :=
  readAllFuel (s.length + 1) s

/-- `XAuthority::write_to` (src/encoding.rs:122-128): encode each entry in
order and concatenate. -/
def XAuthority.write_to : List Entry → List Nat
  | [] => []
  | e :: es => e.write_to ++ XAuthority.write_to es

/-- `XAuthorityFile::get` (src/lib.rs:220-223): rewind to the start of the
file and decode the whole content.  The file is modelled by its byte
content; the cursor is irrelevant because every operation seeks first. -/
def XAuthorityFile.get (file : List Nat) : Except Err (List Entry) :=
  XAuthority.read_from file

/-- `XAuthorityFile::set` (src/lib.rs:225-228): rewind to the start and
write the encoded authority.  Writing `w` bytes at offset 0 overwrites the
first `w.length` bytes of the file in place and leaves any longer previous
content beyond that point untouched; the source never truncates the file
(`set_len` is not called). -/
def XAuthorityFile.set (auth : List Entry) (file : List Nat) : List Nat :=
  let w := XAuthority.write_to auth
  w ++ file.drop w.length

/-- A path on disk, reduced to what `src/lock.rs` inspects: an opaque parent
directory and the final component.  `fileName = none` models a Rust `Path`
whose `file_name()` is `None` (root, empty, or ending in a parent-directory
component); otherwise `fileName` holds the raw bytes of the final component
(`OsStr` is bytes on Unix). -/
structure FsPath where
  parent : String
  fileName : Option (List Nat)
deriving DecidableEq, Repr

/-- A fully resolved sibling path: the shared parent plus a final component. -/
abbrev FullPath := String × List Nat

/-- The filesystem state visible to the lock: the set of paths that exist,
as a list (creation guards prevent duplicates). -/
abbrev FS := List FullPath

/-- Membership of a path in the filesystem state. -/
def fsHas : FS → FullPath → Bool
  | [], _ => false
  | q :: rest, p => if q = p then true else fsHas rest p

/-- `remove_file`: delete the directory entry for a path (a no-op when the
path does not exist, matching the swallowed result in `Lock::drop`). -/
def fsRemove : FS → FullPath → FS
  | [], _ => []
  | q :: rest, p => if q = p then fsRemove rest p else q :: fsRemove rest p

/-- `OpenOptions::new().write(true).create_new(true).open`: atomically create
the path, failing with `AlreadyExists` when it is already present.  The file
handle is immediately dropped by the source, so only existence is tracked. -/
def create_new (fs : FS) (p : FullPath) : Except Err FS :=
  if fsHas fs p then .error .alreadyExists else .ok (p :: fs)

/-- `std::fs::hard_link`: fails with `AlreadyExists` when the destination
exists and with `NotFound` when the source is missing. -/
def hard_link (fs : FS) (src dst : FullPath) : Except Err FS :=
  if fsHas fs dst then .error .alreadyExists
  else if fsHas fs src then .ok (dst :: fs)
  else .error .notFound

/-- `OsStr::to_str`: succeeds exactly on valid UTF-8, returning the same
bytes viewed as a `str`. -/
def to_str (bs : List Nat) : Option (List Nat) :=
  if isUtf8 bs then some bs else none

/-- `Lock` (src/lock.rs:15-18): ownership of the two sibling artifact paths. -/
structure Lock where
  creat_path : FullPath
  link_path : FullPath
deriving DecidableEq, Repr

/-- The outcome of `Lock::aqquire`: either a panic (the `unwrap` on
`to_str`), an error together with the filesystem state left behind (side
effects performed before the failure persist), or the lock plus the new
state. -/
inductive AcqResult where
  | panicked
  | err (e : Err) (fs : FS)
  | ok (lock : Lock) (fs : FS)
deriving DecidableEq, Repr

/-- The bytes of the `"-c"` suffix appended by `format!("{filename}-c")`. -/
def suffixC : List Nat := [45, 99]

/-- The bytes of the `"-l"` suffix appended by `format!("{filename}-l")`. -/
def suffixL : List Nat := [45, 108]

/-- `Lock::aqquire` (src/lock.rs:21-46): take the target's filename (error
`InvalidFilename` when absent), convert it to `str` (`unwrap`, panicking on
non-UTF-8), derive the `-c` and `-l` sibling paths, create the creation path
exclusively, then hard-link it to the link path.  The `?` on `hard_link`
propagates the error without removing the already created creation file. -/
def Lock.aqquire (fs : FS) (p : FsPath) : AcqResult :=
  match p.fileName with
  | none => .err .invalidFilename fs
  | some fname =>
    match to_str fname with
    | none => .panicked
    | some name =>
      let creat : FullPath := (p.parent, name ++ suffixC)
      let link : FullPath := (p.parent, name ++ suffixL)
      match create_new fs creat with
      | .error e => .err e fs
      | .ok fs1 =>
        match hard_link fs1 creat link with
        | .error e => .err e fs1
        | .ok fs2 => .ok ⟨creat, link⟩ fs2

/-- `Lock::drop` (src/lock.rs:49-54): remove both artifact paths, swallowing
any removal failure. -/
def Lock.drop (lk : Lock) (fs : FS) : FS :=
  fsRemove (fsRemove fs lk.creat_path) lk.link_path

/-- The invariants Rust's types give an `Entry` whose fields fit the wire
format: each field at most 65535 bytes, and the two `String` fields valid
UTF-8. -/
def EntryInLimits (e : Entry) : Prop :=
  e.address.length ≤ 65535 ∧ e.display_number.length ≤ 65535 ∧
    e.auth_name.length ≤ 65535 ∧ e.auth_data.length ≤ 65535 ∧
    isUtf8 e.display_number = true ∧ isUtf8 e.auth_name = true

instance (e : Entry) : Decidable (EntryInLimits e) := by
  unfold EntryInLimits
  infer_instance

/-- The smallest possible entry: `Family::Local` with all fields empty;
its encoding is exactly ten bytes. -/
def entryMin : Entry := ⟨.Local, [], [], [], []⟩

/-- A sample wildcard entry with nonempty fields (display "0", name "MIT"). -/
def entryW : Entry := ⟨.Wild, [1, 2], [48], [77, 73, 84], [9, 9]⟩

/-- An entry whose address holds 65536 bytes, one more than the wire format
can describe. -/
def entryOversized : Entry := ⟨.Local, List.replicate 65536 0, [], [], []⟩

/-- Reading back a big-endian `u16` written by `write_len` recovers the value
and leaves the rest of the stream untouched. -/
theorem read_len_write_len (v : Nat) (hv : v < 65536) (rest : List Nat) :
    read_len (write_len v ++ rest) = .ok (v, rest) := by
  simp only [write_len, List.cons_append, List.nil_append, read_len,
    Except.ok.injEq, Prod.mk.injEq, and_true]
  omega

/-- Reading back a field written by `write_field` recovers the bytes and the
rest of the stream, provided the field fits in the length prefix. -/
theorem read_field_write_field (bytes : List Nat) (hb : bytes.length ≤ 65535)
    (rest : List Nat) : read_field (write_field bytes ++ rest) = .ok (bytes, rest) := by
  have hmod : bytes.length % 65536 = bytes.length := Nat.mod_eq_of_lt (by omega)
  simp only [write_field, hmod, List.append_assoc]
  rw [read_field, read_len_write_len _ (by omega)]
  simp only [List.length_append]
  rw [if_neg (by omega)]
  rw [List.take_left, List.drop_left]

/-- A length prefix promising more bytes than the stream still holds makes
`read_field` fail with `UnexpectedEof`. -/
theorem read_field_short (L : Nat) (hL : L < 65536) (data : List Nat)
    (hd : data.length < L) : read_field (write_len L ++ data) = .error .eof := by
  rw [read_field, read_len_write_len _ hL]
  simp [hd]

/-- Every `Family` discriminant fits in a `u16`. -/
theorem Family.toCode_lt (f : Family) : f.toCode < 65536 := by
  cases f <;> decide

/-- `from_repr` inverts the discriminant map on every declared variant. -/
theorem Family.from_repr_toCode (f : Family) : Family.from_repr f.toCode = some f := by
  cases f <;> decide

/-- Decoding an encoded entry from the front of a stream recovers the entry
and leaves the rest of the stream, for entries within the wire limits. -/
theorem Entry.read_write (e : Entry) (rest : List Nat) (h : EntryInLimits e) :
    Entry.read_from (e.write_to ++ rest) = .ok (some e, rest) := by
  obtain ⟨h1, h2, h3, h4, h5, h6⟩ := h
  simp only [Entry.write_to, List.append_assoc]
  simp only [Entry.read_from, read_len_write_len _ (Family.toCode_lt e.family),
    Family.from_repr_toCode, read_field_write_field _ h1, read_field_write_field _ h2,
    read_field_write_field _ h3, read_field_write_field _ h4, h5, h6, if_true]

/-- `read_len` consumes exactly two bytes on success. -/
theorem read_len_length {s : List Nat} {v : Nat} {s1 : List Nat}
    (h : read_len s = .ok (v, s1)) : s1.length + 2 = s.length := by
  rcases s with _ | ⟨a, _ | ⟨b, r⟩⟩
  · simp [read_len] at h
  · simp [read_len] at h
  · simp only [read_len, Except.ok.injEq, Prod.mk.injEq] at h
    rw [← h.2]
    simp

/-- `read_field` consumes at least two bytes on success. -/
theorem read_field_length {s f s1 : List Nat}
    (h : read_field s = .ok (f, s1)) : s1.length + 2 ≤ s.length := by
  rw [read_field] at h
  cases hl : read_len s with
  | error e =>
    simp [hl] at h
  | ok v =>
    obtain ⟨len, s2⟩ := v
    simp only [hl] at h
    have hlen := read_len_length hl
    by_cases hlt : s2.length < len
    · simp [hlt] at h
    · simp only [hlt, if_false, Except.ok.injEq, Prod.mk.injEq] at h
      have hdrop : s1.length = s2.length - len := by
        rw [← h.2]
        simp
      omega

/-- A successful `Entry::read_from` strictly shrinks the stream. -/
theorem Entry.read_from_length {s : List Nat} {e : Entry} {s1 : List Nat}
    (h : Entry.read_from s = .ok (some e, s1)) : s1.length < s.length := by
  rw [Entry.read_from] at h
  cases hl : read_len s with
  | error er => simp only [hl, Except.ok.injEq, Prod.mk.injEq] at h; exact absurd h.1 (by simp)
  | ok v =>
    obtain ⟨fam, sa⟩ := v
    simp only [hl] at h
    have ha := read_len_length hl
    cases hf : Family.from_repr fam with
    | none => simp [hf] at h
    | some F =>
      simp only [hf] at h
      cases h2 : read_field sa with
      | error er => simp [h2] at h
      | ok v2 =>
        obtain ⟨addr, sb⟩ := v2
        simp only [h2] at h
        have hb := read_field_length h2
        cases h3 : read_field sb with
        | error er => simp [h3] at h
        | ok v3 =>
          obtain ⟨dn, sc⟩ := v3
          simp only [h3] at h
          have hc := read_field_length h3
          by_cases hu1 : isUtf8 dn = true
          · simp only [hu1, if_true] at h
            cases h4 : read_field sc with
            | error er => simp [h4] at h
            | ok v4 =>
              obtain ⟨an, sd⟩ := v4
              simp only [h4] at h
              have hd := read_field_length h4
              by_cases hu2 : isUtf8 an = true
              · simp only [hu2, if_true] at h
                cases h5 : read_field sd with
                | error er => simp [h5] at h
                | ok v5 =>
                  obtain ⟨ad, se⟩ := v5
                  simp only [h5, Except.ok.injEq, Prod.mk.injEq] at h
                  have hee := read_field_length h5
                  rw [← h.2]
                  omega
              · simp only [hu2, if_false] at h
                simp at h
          · simp only [hu1, if_false] at h
            simp at h

/-- The fuelled container loop is insensitive to the exact fuel, as long as
the fuel exceeds the stream length: each successful entry read strictly
shrinks the stream while consuming one unit of fuel. -/
theorem readAllFuel_irrelevant : ∀ {fuel fuel' : Nat} {s : List Nat},
    s.length < fuel → s.length < fuel' → readAllFuel fuel s = readAllFuel fuel' s := by
  intro fuel
  induction fuel with
  | zero => intro fuel' s h _; omega
  | succ f ih =>
    intro fuel' s h h'
    cases fuel' with
    | zero => omega
    | succ f' =>
      cases hr : Entry.read_from s with
      | error e => simp only [readAllFuel, hr]
      | ok v =>
        obtain ⟨oe, s1⟩ := v
        cases oe with
        | none => simp only [readAllFuel, hr]
        | some e =>
          have hlt := Entry.read_from_length hr
          simp only [readAllFuel, hr]
          rw [ih (show s1.length < f by omega) (show s1.length < f' by omega)]

/-- The number of bytes an entry encodes to: two for the family code, plus
two per length prefix, plus the field contents. -/
theorem Entry.write_to_length (e : Entry) :
    e.write_to.length = 10 + e.address.length + e.display_number.length +
      e.auth_name.length + e.auth_data.length := by
  simp [Entry.write_to, write_field, write_len]
  omega

/-- A container of `n` entries encodes to at least `n` bytes. -/
theorem XAuthority.length_le_write_to (es : List Entry) :
    es.length ≤ (XAuthority.write_to es).length := by
  induction es with
  | nil => simp [XAuthority.write_to]
  | cons e es ih =>
    simp only [XAuthority.write_to, List.length_append, List.length_cons]
    have := Entry.write_to_length e
    omega

/-- The fuelled loop decodes an encoded container back to its entries. -/
theorem readAllFuel_write (es : List Entry) :
    ∀ fuel, es.length < fuel → (∀ e ∈ es, EntryInLimits e) →
      readAllFuel fuel (XAuthority.write_to es) = .ok es := by
  induction es with
  | nil =>
    intro fuel hf _
    cases fuel with
    | zero => omega
    | succ f => simp [readAllFuel, XAuthority.write_to, Entry.read_from, read_len]
  | cons e es ih =>
    intro fuel hf h
    cases fuel with
    | zero => omega
    | succ f =>
      have he : EntryInLimits e := h e (by simp)
      simp only [XAuthority.write_to]
      simp only [readAllFuel, Entry.read_write e _ he]
      rw [ih f (by simp only [List.length_cons] at hf; omega)
        (fun x hx => h x (by simp [hx]))]

/-- C1: the source's `set` rewinds and writes but never truncates
(`set_len` is not called), so writing a strictly shorter authority over a
longer file leaves the old trailing bytes in place: the file keeps its old
20-byte size instead of the fresh 10-byte encoding, and a subsequent `get`
decodes a leftover second entry that was never part of the authority set. -/
theorem c1_set_leaves_stale_tail :
    (XAuthority.write_to [entryMin]).length = 10 ∧
    (XAuthorityFile.set [entryMin] (XAuthority.write_to [entryMin, entryMin])).length = 20 ∧
    XAuthorityFile.get (XAuthorityFile.set [entryMin]
      (XAuthority.write_to [entryMin, entryMin])) = .ok [entryMin, entryMin] := by
  decide

/-- C2: encoding a field of 65536 bytes succeeds instead of failing with a
size-limit error: the `as u16` cast wraps the length prefix to
`65536 % 2^16 = 0` while every one of the 65536 bytes is still written. -/
theorem c2_oversized_field_wraps :
    write_field entryOversized.address = [0, 0] ++ List.replicate 65536 0 ∧
    (write_field entryOversized.address).length = 65538 ∧
    entryOversized.write_to =
      [1, 0] ++ ([0, 0] ++ List.replicate 65536 0) ++ [0, 0] ++ [0, 0] ++ [0, 0] := by
  have hw : write_field (List.replicate 65536 0) = [0, 0] ++ List.replicate 65536 0 := by
    unfold write_field
    rw [List.length_replicate, Nat.mod_self]
    rfl
  refine ⟨hw, ?_, ?_⟩
  · show (write_field (List.replicate 65536 0)).length = 65538
    rw [hw, List.length_append, List.length_replicate]
    rfl
  · show write_len 256 ++ write_field (List.replicate 65536 0) ++ write_field [] ++
      write_field [] ++ write_field [] = _
    rw [hw]
    rfl

/-- C3 counterexample: the unrecognized family code 999 does not decode to
an opaque passthrough value; `from_repr` rejects it and `Entry::read_from`
fails with an invalid-field error on an otherwise well-formed record. -/
theorem c3_unrecognized_family_errors :
    Family.from_repr 999 = none ∧
    Entry.read_from (write_len 999 ++ [0, 0, 0, 0, 0, 0, 0, 0]) =
      .error (.invalidField "family") := by
  decide

/-- C3 (amended): family-code decoding is partial, not total: exactly the
six declared codes decode (to their named variants) and every other 16-bit
value, such as 999, is rejected; every variant still encodes back to its
fixed numeric code, in particular Local to 256 and Wild to 65535. -/
theorem c3_family_decode_partial :
    (∀ v : Nat, (Family.from_repr v).isSome ↔
      (v = 256 ∨ v = 65535 ∨ v = 254 ∨ v = 253 ∨ v = 252 ∨ v = 0)) ∧
    (∀ f : Family, Family.from_repr f.toCode = some f) ∧
    Family.Local.toCode = 256 ∧ Family.Wild.toCode = 65535 := by
  refine ⟨?_, Family.from_repr_toCode, rfl, rfl⟩
  intro v
  unfold Family.from_repr
  split_ifs <;> simp_all

/-- C4: the source maps every failure of the initial family-code read to
`Ok(None)` (end-of-records), so a one-byte stream — a short read that the
claim requires to be a fatal decode error — is reported as end-of-records,
exactly like the genuinely empty stream. -/
theorem c4_short_family_read_not_fatal :
    Entry.read_from [0] = .ok (none, [0]) ∧
    Entry.read_from [] = .ok (none, []) := by
  decide

/-- C5: encoding an in-limit entry and decoding the produced bytes yields
the same entry field for field, for every family variant. -/
theorem c5_entry_roundtrip (e : Entry) (h : EntryInLimits e) :
    Entry.read_from e.write_to = .ok (some e, []) := by
  have := Entry.read_write e [] h
  simpa using this

/-- C5 witness: the round trip at a concrete wildcard entry. -/
theorem c5_entry_roundtrip_witness :
    Entry.read_from entryW.write_to = .ok (some entryW, []) :=
  c5_entry_roundtrip entryW (by decide)

/-- C6: serializing an ordered sequence of in-limit entries and re-reading
the produced bytes yields the same entries in the same order. -/
theorem c6_container_roundtrip (es : List Entry) (h : ∀ e ∈ es, EntryInLimits e) :
    XAuthority.read_from (XAuthority.write_to es) = .ok es := by
  have hlen := XAuthority.length_le_write_to es
  exact readAllFuel_write es _ (by omega) h

/-- C6 witness: a concrete container with a duplicate entry round-trips,
duplicates and order preserved. -/
theorem c6_container_roundtrip_witness :
    XAuthority.read_from (XAuthority.write_to [entryW, entryW, entryMin]) =
      .ok [entryW, entryW, entryMin] :=
  c6_container_roundtrip [entryW, entryW, entryMin] (by decide)

/-- C7: at each of the four field positions, a well-formed prefix followed
by a 16-bit length `L` and fewer than `L` bytes makes `Entry::read_from`
fail with an end-of-file decode error rather than produce a partial entry. -/
theorem c7_truncated_field_fatal :
    (∀ (L : Nat) (data : List Nat), L ≤ 65535 → data.length < L →
      Entry.read_from (write_len 256 ++ (write_len L ++ data)) = .error .eof) ∧
    (∀ (addr : List Nat) (L : Nat) (data : List Nat),
      addr.length ≤ 65535 → L ≤ 65535 → data.length < L →
      Entry.read_from (write_len 256 ++ (write_field addr ++ (write_len L ++ data))) =
        .error .eof) ∧
    (∀ (addr dn : List Nat) (L : Nat) (data : List Nat),
      addr.length ≤ 65535 → dn.length ≤ 65535 → isUtf8 dn = true →
      L ≤ 65535 → data.length < L →
      Entry.read_from
        (write_len 256 ++ (write_field addr ++ (write_field dn ++ (write_len L ++ data)))) =
        .error .eof) ∧
    (∀ (addr dn an : List Nat) (L : Nat) (data : List Nat),
      addr.length ≤ 65535 → dn.length ≤ 65535 → isUtf8 dn = true →
      an.length ≤ 65535 → isUtf8 an = true → L ≤ 65535 → data.length < L →
      Entry.read_from (write_len 256 ++ (write_field addr ++ (write_field dn ++
        (write_field an ++ (write_len L ++ data))))) = .error .eof) := by
  refine ⟨?_, ?_, ?_, ?_⟩
  · intro L data hL hd
    simp only [Entry.read_from, read_len_write_len 256 (by omega),
      read_field_short L (by omega) data hd]
    rfl
  · intro addr L data ha hL hd
    simp only [Entry.read_from, read_len_write_len 256 (by omega),
      read_field_write_field addr ha, read_field_short L (by omega) data hd]
    rfl
  · intro addr dn L data ha hdn hu hL hd
    simp only [Entry.read_from, read_len_write_len 256 (by omega),
      read_field_write_field addr ha, read_field_write_field dn hdn, hu, if_true,
      read_field_short L (by omega) data hd]
    rfl
  · intro addr dn an L data ha hdn hu1 han hu2 hL hd
    simp only [Entry.read_from, read_len_write_len 256 (by omega),
      read_field_write_field addr ha, read_field_write_field dn hdn, hu1, if_true,
      read_field_write_field an han, hu2,
      read_field_short L (by omega) data hd]
    rfl

/-- C7 witness: concrete truncated streams at each of the four positions. -/
theorem c7_truncated_field_fatal_witness :
    Entry.read_from (write_len 256 ++ (write_len 5 ++ [1, 2])) = .error .eof ∧
    Entry.read_from (write_len 256 ++ (write_field [7] ++ (write_len 3 ++ [1]))) =
      .error .eof ∧
    Entry.read_from (write_len 256 ++ (write_field [7] ++ (write_field [48] ++
      (write_len 2 ++ [])))) = .error .eof ∧
    Entry.read_from (write_len 256 ++ (write_field [7] ++ (write_field [48] ++
      (write_field [77] ++ (write_len 9 ++ [5]))))) = .error .eof :=
  ⟨c7_truncated_field_fatal.1 5 [1, 2] (by decide) (by decide),
   c7_truncated_field_fatal.2.1 [7] 3 [1] (by decide) (by decide) (by decide),
   c7_truncated_field_fatal.2.2.1 [7] [48] 2 [] (by decide) (by decide) (by decide)
     (by decide) (by decide),
   c7_truncated_field_fatal.2.2.2 [7] [48] [77] 9 [5] (by decide) (by decide)
     (by decide) (by decide) (by decide) (by decide) (by decide)⟩

/-- Removing a path removes every directory entry for it. -/
theorem fsHas_fsRemove_self (fs : FS) (p : FullPath) :
    fsHas (fsRemove fs p) p = false := by
  induction fs with
  | nil => rfl
  | cons q rest ih =>
    by_cases hq : q = p
    · simp [fsRemove, hq, ih]
    · simp [fsRemove, fsHas, hq, ih]

/-- Removing one path leaves the presence of any other path unchanged. -/
theorem fsHas_fsRemove_ne (fs : FS) (p q : FullPath) (hne : p ≠ q) :
    fsHas (fsRemove fs q) p = fsHas fs p := by
  induction fs with
  | nil => rfl
  | cons r rest ih =>
    by_cases hr : r = q
    · subst hr
      simp [fsRemove, fsHas, Ne.symm hne, ih]
    · simp [fsRemove, fsHas, hr, ih]

/-- The two lock artifacts derived from one filename are distinct paths. -/
theorem creat_ne_link (par : String) (name : List Nat) :
    ((par, name ++ suffixC) : FullPath) ≠ (par, name ++ suffixL) := by
  intro hEq
  have h2 : name ++ suffixC = name ++ suffixL := congrArg Prod.snd hEq
  have h3 := List.append_cancel_left h2
  simp [suffixC, suffixL] at h3

/-- A path without a filename component makes `Lock::aqquire` fail with
`InvalidFilename`, before touching the filesystem. -/
theorem aqquire_none (fs : FS) (p : FsPath) (hfn : p.fileName = none) :
    Lock.aqquire fs p = .err .invalidFilename fs := by
  simp [Lock.aqquire, hfn]

/-- A filename that is not valid UTF-8 makes the `unwrap` in `Lock::aqquire`
panic. -/
theorem aqquire_panic (fs : FS) (p : FsPath) (fname : List Nat)
    (hfn : p.fileName = some fname) (hu : isUtf8 fname = false) :
    Lock.aqquire fs p = .panicked := by
  simp [Lock.aqquire, hfn, to_str, hu]

/-- Evaluating `Lock::aqquire` on a path with a valid UTF-8 filename: it
fails with `AlreadyExists` when the creation artifact is present; when only
the link artifact is present it fails with `AlreadyExists` after having
created the creation artifact, which stays on disk; and when both artifacts
are absent it succeeds, creating both. -/
theorem aqquire_eval (fs : FS) (p : FsPath) (fname : List Nat)
    (hfn : p.fileName = some fname) (hu : isUtf8 fname = true) :
    (fsHas fs (p.parent, fname ++ suffixC) = true →
      Lock.aqquire fs p = .err .alreadyExists fs) ∧
    (fsHas fs (p.parent, fname ++ suffixC) = false →
      fsHas fs (p.parent, fname ++ suffixL) = true →
      Lock.aqquire fs p = .err .alreadyExists ((p.parent, fname ++ suffixC) :: fs)) ∧
    (fsHas fs (p.parent, fname ++ suffixC) = false →
      fsHas fs (p.parent, fname ++ suffixL) = false →
      Lock.aqquire fs p =
        .ok ⟨(p.parent, fname ++ suffixC), (p.parent, fname ++ suffixL)⟩
          ((p.parent, fname ++ suffixL) :: (p.parent, fname ++ suffixC) :: fs)) := by
  have hne := creat_ne_link p.parent fname
  refine ⟨?_, ?_, ?_⟩
  · intro hc
    simp [Lock.aqquire, hfn, to_str, hu, create_new, hc]
  · intro hc hl
    simp [Lock.aqquire, hfn, to_str, hu, create_new, hc, hard_link, fsHas, hl, hne]
  · intro hc hl
    simp [Lock.aqquire, hfn, to_str, hu, create_new, hc, hard_link, fsHas, hl, hne]

/-- Everything a successful `Lock::aqquire` implies: the path had a valid
UTF-8 filename, neither artifact existed beforehand, the returned lock owns
the two artifact paths, and both now exist. -/
theorem aqquire_ok_shape {fs : FS} {p : FsPath} {lk : Lock} {fs1 : FS}
    (h : Lock.aqquire fs p = .ok lk fs1) :
    ∃ fname, p.fileName = some fname ∧ isUtf8 fname = true ∧
      fsHas fs (p.parent, fname ++ suffixC) = false ∧
      fsHas fs (p.parent, fname ++ suffixL) = false ∧
      lk = ⟨(p.parent, fname ++ suffixC), (p.parent, fname ++ suffixL)⟩ ∧
      fs1 = (p.parent, fname ++ suffixL) :: (p.parent, fname ++ suffixC) :: fs := by
  cases hfn : p.fileName with
  | none =>
    rw [aqquire_none fs p hfn] at h
    simp at h
  | some fname =>
    by_cases hu : isUtf8 fname = true
    · by_cases hc : fsHas fs (p.parent, fname ++ suffixC) = true
      · rw [(aqquire_eval fs p fname hfn hu).1 hc] at h
        simp at h
      · have hc2 : fsHas fs (p.parent, fname ++ suffixC) = false := by simpa using hc
        by_cases hl : fsHas fs (p.parent, fname ++ suffixL) = true
        · rw [(aqquire_eval fs p fname hfn hu).2.1 hc2 hl] at h
          simp at h
        · have hl2 : fsHas fs (p.parent, fname ++ suffixL) = false := by simpa using hl
          rw [(aqquire_eval fs p fname hfn hu).2.2 hc2 hl2] at h
          simp only [AcqResult.ok.injEq] at h
          exact ⟨fname, rfl, hu, hc2, hl2, h.1.symm, h.2.symm⟩
    · rw [aqquire_panic fs p fname hfn (by simpa using hu)] at h
      simp at h

/-- C8: after a successful acquisition, a second `Lock::aqquire` on the same
path fails with `AlreadyExists` — the kind that distinguishes contention
from other I/O failures — and leaves the filesystem unchanged; immediately
after the first lock is released (its `Drop` removing both artifacts), a
fresh acquisition on the same path succeeds. -/
theorem c8_lock_mutual_exclusion (fs : FS) (p : FsPath) (lk : Lock) (fs1 : FS)
    (h : Lock.aqquire fs p = .ok lk fs1) :
    Lock.aqquire fs1 p = .err .alreadyExists fs1 ∧
    ∃ lk2 fs2, Lock.aqquire (Lock.drop lk fs1) p = .ok lk2 fs2 := by
  obtain ⟨fname, hfn, hu, hc, hl, rfl, rfl⟩ := aqquire_ok_shape h
  have hne := creat_ne_link p.parent fname
  constructor
  · apply (aqquire_eval _ p fname hfn hu).1
    simp [fsHas]
  · refine ⟨_, _, (aqquire_eval _ p fname hfn hu).2.2 ?_ ?_⟩
    · unfold Lock.drop
      rw [fsHas_fsRemove_ne _ _ _ hne]
      exact fsHas_fsRemove_self _ _
    · unfold Lock.drop
      exact fsHas_fsRemove_self _ _

/-- C8 witness: the smallest concrete scenario — an empty directory and a
target file named "a" — instantiating both conclusions. -/
theorem c8_lock_mutual_exclusion_witness :
    Lock.aqquire [("d", [97, 45, 108]), ("d", [97, 45, 99])] ⟨"d", some [97]⟩ =
      .err .alreadyExists [("d", [97, 45, 108]), ("d", [97, 45, 99])] ∧
    ∃ lk2 fs2,
      Lock.aqquire
        (Lock.drop ⟨("d", [97, 45, 99]), ("d", [97, 45, 108])⟩
          [("d", [97, 45, 108]), ("d", [97, 45, 99])])
        ⟨"d", some [97]⟩ = .ok lk2 fs2 :=
  c8_lock_mutual_exclusion [] ⟨"d", some [97]⟩
    ⟨("d", [97, 45, 99]), ("d", [97, 45, 108])⟩
    [("d", [97, 45, 108]), ("d", [97, 45, 99])] (by decide)

/-- C9: when the link artifact "a-l" already exists but the creation
artifact does not (the hard-link step is the one that fails), acquisition
fails with an error, yet the creation file "a-c" that was just created is
left on the filesystem — the failure path never removes it. -/
theorem c9_failed_link_leaves_creation_file :
    Lock.aqquire [("d", [97, 45, 108])] ⟨"d", some [97]⟩ =
      .err .alreadyExists [("d", [97, 45, 99]), ("d", [97, 45, 108])] ∧
    fsHas [("d", [97, 45, 99]), ("d", [97, 45, 108])] ("d", [97, 45, 99]) = true := by
  decide

/-- C10: `Lock::aqquire` returns `InvalidFilename` exactly for paths without
a filename component, and panics (the `unwrap` on `to_str`) — rather than
returning an I/O error — whenever the filename bytes are not valid UTF-8. -/
theorem c10_filename_handling :
    (∀ (fs : FS) (p : FsPath), p.fileName = none →
      Lock.aqquire fs p = .err .invalidFilename fs) ∧
    (∀ (fs : FS) (p : FsPath) (bs : List Nat),
      p.fileName = some bs → isUtf8 bs = false → Lock.aqquire fs p = .panicked) ∧
    (∀ (fs : FS) (p : FsPath) (r : FS),
      Lock.aqquire fs p = .err .invalidFilename r → p.fileName = none) := by
  refine ⟨aqquire_none, aqquire_panic, ?_⟩
  intro fs p r h
  cases hfn : p.fileName with
  | none => rfl
  | some fname =>
    by_cases hu : isUtf8 fname = true
    · by_cases hc : fsHas fs (p.parent, fname ++ suffixC) = true
      · rw [(aqquire_eval fs p fname hfn hu).1 hc] at h
        simp at h
      · have hc2 : fsHas fs (p.parent, fname ++ suffixC) = false := by simpa using hc
        by_cases hl : fsHas fs (p.parent, fname ++ suffixL) = true
        · rw [(aqquire_eval fs p fname hfn hu).2.1 hc2 hl] at h
          simp at h
        · rw [(aqquire_eval fs p fname hfn hu).2.2 hc2 (by simpa using hl)] at h
          simp at h
    · rw [aqquire_panic fs p fname hfn (by simpa using hu)] at h
      simp at h

/-- C10 witness: a path with no filename yields `InvalidFilename`; a path
whose filename byte 0xFF is not UTF-8 panics. -/
theorem c10_filename_handling_witness :
    Lock.aqquire [] ⟨"d", none⟩ = .err .invalidFilename [] ∧
    Lock.aqquire [] ⟨"d", some [255]⟩ = .panicked :=
  ⟨c10_filename_handling.1 [] ⟨"d", none⟩ rfl,
   c10_filename_handling.2.1 [] ⟨"d", some [255]⟩ [255] rfl (by decide)⟩

end Xauth
